import Mathlib

/-!
Verification of the Space Claw agent core: a shallow embedding, in Lean, of
the agent loop (`agent.ts`), the tool dispatcher (`tools/index.ts`), the three
provider adapters (`providers/openai-provider.ts`, `anthropic-provider.ts`,
`google-provider.ts`) and the SQLite conversation/notes store (`memory.ts`),
together with theorems settling the specification's claims about them.

Modelling conventions:
- JSON values are the inductive `JVal`; JavaScript objects are association
  lists `List (String × JVal)` (keys unique in practice, lookup = first match).
- `JSON.parse` of external text is an oracle parameter
  `parseJson : String → Option JVal` (`none` = the parse threw).
- Exceptions thrown by tool `execute` handlers are `Except String String`.
- Provider behaviour is an oracle `provider : List Msg → LLMResponse`;
  the network call itself is outside the embedding.
-/

namespace SpaceClaw

/-- A JSON value, as produced by `JSON.parse`.  Numbers are modelled as
integers (no claim depends on float arithmetic). -/
inductive JVal where
  | null
  | bool (b : Bool)
  | num (n : Int)
  | str (s : String)
  | arr (xs : List JVal)
  | obj (fs : List (String × JVal))
deriving Repr

/-- First-match field lookup on a JavaScript object (`o[k]`; `none` models
`undefined`). -/
def lookupField (fs : List (String × JVal)) (k : String) : Option JVal :=
  (fs.find? (fun p => p.1 == k)).map (fun p => p.2)

/-- JavaScript truthiness of a value. -/
def truthy : JVal → Bool
  | .null => false
  | .bool b => b
  | .num n => n != 0
  | .str s => s != ""
  | .arr _ => true
  | .obj _ => true

-- ── Canonical protocol (providers/types.ts, OpenAI message shapes) ──────────

/-- One tool call requested by the model (`providers/types.ts` `ToolCall`):
id, tool name, and the raw serialized argument object. -/
structure ToolCall where
  id : String
  name : String
  arguments : String
deriving Repr, DecidableEq

/-- A canonical conversation message (the OpenAI `ChatCompletionMessageParam`
shape used throughout the source).  The role is kept as a string, as at the
JavaScript runtime; `content = none` models `null`. -/
structure Msg where
  role : String
  content : Option String
  tool_calls : List ToolCall := []
  tool_call_id : Option String := none
deriving Repr, DecidableEq

/-- The unified provider result (`providers/types.ts` `LLMResponse`). -/
structure LLMResponse where
  content : Option String
  toolCalls : Option (List ToolCall)
  assistantMessage : Msg
deriving Repr, DecidableEq

-- ── Tool registry and dispatcher (tools/index.ts) ───────────────────────────

/-- The function part of an OpenAI tool spec (`spec.function`): name,
description, JSON-Schema parameters object. -/
structure FunctionSpec where
  name : String
  description : String
  parameters : List (String × JVal)

/-- A registered tool (`tools/index.ts` `ToolDefinition`).  `execute` returns
the result string, or `.error e` modelling a thrown exception whose
`String(err)` rendering is `e`. -/
structure ToolDefinition where
  spec : FunctionSpec
  execute : JVal → Except String String

/-- Function `dispatchTool` from `tools/index.ts`: find the tool by exact name, parse
the raw arguments, run the tool; every failure is converted to an error
string.  The Lean function is total: the "never raises" part of the contract
is the fact that its codomain is `String`, not `Except`. -/
def dispatchTool (parseJson : String → Option JVal) (tools : List ToolDefinition)
    (name rawArgs : String) : String :=
  match tools.find? (fun t => t.spec.name == name) with
  | none => "Error: unknown tool \"" ++ name ++ "\""
  | some tool =>
    match parseJson rawArgs with
    | none => "Error: could not parse arguments as JSON: " ++ rawArgs
    | some args =>
      match tool.execute args with
      | .ok res => res
      | .error err => "Error executing \"" ++ name ++ "\": " ++ err

-- ── The agent loop (agent.ts, runAgentTurn) ─────────────────────────────────

/-- The fixed warning returned when the iteration cap is hit (`agent.ts`). -/
def maxIterWarning : String :=
  "⚠️ I hit my maximum tool-call limit for this turn. Please try again or rephrase your request."

/-- The tool-result messages pushed after `Promise.all` resolves: one `tool`
message per requested call, in the original request order, carrying the
request's id (`agent.ts` lines 272-284).  `dispatch` abstracts
`dispatchTool` with the registry and JSON parser fixed. -/
def toolResultMsgs (dispatch : String → String → String) (calls : List ToolCall) :
    List Msg :=
  calls.map (fun c =>
    { role := "tool", content := some (dispatch c.name c.arguments),
      tool_calls := [], tool_call_id := some c.id })

/-- Outcome of the `while` loop in `runAgentTurn`: final reply, the full
`messages` array at exit, the number of provider calls made, and whether the
iteration cap was hit (`hitCap = true` is the fall-through after the loop). -/
structure LoopResult where
  reply : String
  messagesOut : List Msg
  calls : Nat
  hitCap : Bool
deriving Repr, DecidableEq

/-- The `while (iterations < config.AGENT_MAX_ITERATIONS)` loop of
`runAgentTurn`, with the remaining iteration budget as fuel.  Each pass calls
the provider once, pushes the assistant message, and either returns the text
reply (no tool calls) or appends the tool results and loops. -/
def runLoop (provider : List Msg → LLMResponse) (dispatch : String → String → String) :
    Nat → List Msg → LoopResult
  | 0, messages => ⟨maxIterWarning, messages, 0, true⟩
  | fuel + 1, messages =>
    let result := provider messages
    let withAssistant := messages ++ [result.assistantMessage]
    match result.toolCalls with
    | some (tc :: tcs) =>
      let r := runLoop provider dispatch fuel
        (withAssistant ++ toolResultMsgs dispatch (tc :: tcs))
      ⟨r.reply, r.messagesOut, r.calls + 1, r.hitCap⟩
    | _ => ⟨result.content.getD "(no response)", withAssistant, 1, false⟩

/-- The system message injected at the head of the turn's message array. -/
def systemMsg (systemPrompt : String) : Msg :=
  { role := "system", content := some systemPrompt }

/-- The user message appended for the incoming text. -/
def userMsg (userMessage : String) : Msg :=
  { role := "user", content := some userMessage }

/-- Function `runAgentTurn` up to its loop exit: builds
`[system prompt, ...history, user message]` and runs the loop
(`agent.ts` lines 242-296).  The system prompt (base instructions + profile
facts + retrieved memory block) is built by I/O before the loop and is taken
here as a parameter. -/
def runAgentTurnStats (provider : List Msg → LLMResponse)
    (dispatch : String → String → String) (maxIterations : Nat)
    (systemPrompt : String) (history : List Msg) (userMessage : String) :
    LoopResult :=
  runLoop provider dispatch maxIterations
    (systemMsg systemPrompt :: (history ++ [userMsg userMessage]))

/-- The value `runAgentTurn` returns to its caller:
`{ reply, updatedHistory: messages.slice(1) }` on both the final-reply and the
max-iterations paths. -/
def runAgentTurn (provider : List Msg → LLMResponse)
    (dispatch : String → String → String) (maxIterations : Nat)
    (systemPrompt : String) (history : List Msg) (userMessage : String) :
    String × List Msg :=
  let r := runAgentTurnStats provider dispatch maxIterations systemPrompt history userMessage
  (r.reply, r.messagesOut.drop 1)

/-- Returns `true` iff the response carries a non-null, non-empty tool-call list —
the condition under which the loop keeps going
(negation of `!result.toolCalls || result.toolCalls.length === 0`). -/
def hasToolCalls (r : LLMResponse) : Bool :=
  match r.toolCalls with
  | some (_ :: _) => true
  | _ => false

-- ── OpenAI-compatible adapter (providers/openai-provider.ts) ────────────────

/-- The `function` part of an OpenAI wire tool call. -/
structure OAIFunction where
  name : String
  arguments : String
deriving Repr, DecidableEq

/-- One tool call on an OpenAI chat-completion message. -/
structure OAIToolCall where
  id : String
  function : OAIFunction
deriving Repr, DecidableEq

/-- The `message` of an OpenAI completion choice. -/
structure OAIMessage where
  content : Option String
  tool_calls : Option (List OAIToolCall)
deriving Repr, DecidableEq

/-- One element of `response.choices`. -/
structure OAIChoice where
  message : OAIMessage
deriving Repr, DecidableEq

/-- A parsed OpenAI chat-completion response. -/
structure OAIResponse where
  choices : List OAIChoice
deriving Repr, DecidableEq

/-- The canonical assistant message the OpenAI adapter pushes: the raw wire
message cast to the canonical shape (`msg as ChatCompletionMessageParam`). -/
def oaiToCanonical (msg : OAIMessage) : Msg :=
  { role := "assistant", content := msg.content,
    tool_calls := (msg.tool_calls.getD []).map (fun tc =>
      ⟨tc.id, tc.function.name, tc.function.arguments⟩),
    tool_call_id := none }

/-- The response-shaping logic of `makeOpenAICompatible(...).complete`
(lines 37-58): throw on an empty `choices` array, return tool calls when
`tool_calls` is non-empty, otherwise text (null content coalesced to
`"(no response)"`). -/
def completeOpenAI (resp : OAIResponse) : Except String LLMResponse :=
  match resp.choices with
  | [] => .error "returned no choices"
  | choice :: _ =>
    let msg := choice.message
    match msg.tool_calls with
    | some (tc :: tcs) =>
      .ok { content := none,
            toolCalls := some ((tc :: tcs).map (fun c =>
              ⟨c.id, c.function.name, c.function.arguments⟩)),
            assistantMessage := oaiToCanonical msg }
    | _ =>
      .ok { content := some (msg.content.getD "(no response)"),
            toolCalls := none,
            assistantMessage := oaiToCanonical msg }

-- ── Anthropic adapter (providers/anthropic-provider.ts) ─────────────────────

/-- A content block of an Anthropic response: text, or a `tool_use` request.
`input` holds the `JSON.stringify` rendering of the block's input object
(the adapter only ever re-serializes it). -/
inductive AnthropicBlock where
  | text (t : String)
  | toolUse (id : String) (name : String) (input : String)
deriving Repr, DecidableEq

/-- A parsed Anthropic messages-API response. -/
structure AnthropicResponse where
  content : List AnthropicBlock
deriving Repr, DecidableEq

/-- The `tool_use` blocks of a response, in order. -/
def anthropicToolUses (resp : AnthropicResponse) : List (String × String × String) :=
  resp.content.filterMap (fun b =>
    match b with
    | .toolUse id name input => some (id, name, input)
    | .text _ => none)

/-- The concatenation of the text blocks (`.map(b => b.text).join("")`). -/
def anthropicText (resp : AnthropicResponse) : String :=
  String.join (resp.content.filterMap (fun b =>
    match b with
    | .text t => some t
    | .toolUse _ _ _ => none))

/-- The response-shaping logic of `createAnthropicProvider(...).complete`
(lines 112-161): if any `tool_use` block is present, return tool calls with
`content: null` and an assistant message whose text is `textContent || null`;
otherwise return the joined text, empty coalesced to `"(no response)"`. -/
def completeAnthropic (resp : AnthropicResponse) : LLMResponse :=
  match anthropicToolUses resp with
  | (tu :: tus) =>
    let textContent := anthropicText resp
    let toolCalls := (tu :: tus).map (fun u => ToolCall.mk u.1 u.2.1 u.2.2)
    { content := none,
      toolCalls := some toolCalls,
      assistantMessage :=
        { role := "assistant",
          content := if textContent == "" then none else some textContent,
          tool_calls := toolCalls, tool_call_id := none } }
  | [] =>
    let text := anthropicText resp
    let text' := if text == "" then "(no response)" else text
    { content := some text',
      toolCalls := none,
      assistantMessage := { role := "assistant", content := some text' } }

-- ── Google Gemini adapter (providers/google-provider.ts) ────────────────────

/-- One function call reported by Gemini; `args` holds the `JSON.stringify`
rendering of `fc.args`. -/
structure GeminiFnCall where
  name : String
  args : String
deriving Repr, DecidableEq

/-- A parsed Gemini response: `response.functionCalls()` (possibly undefined)
and `response.text()`. -/
structure GeminiResponse where
  fnCalls : Option (List GeminiFnCall)
  text : String
deriving Repr, DecidableEq

/-- The tool calls built from Gemini function calls: ids are synthesized as
`gemini-0`, `gemini-1`, … by a counter scoped to the response. -/
def geminiToolCalls (fcs : List GeminiFnCall) : List ToolCall :=
  fcs.enum.map (fun p => ⟨"gemini-" ++ toString p.1, p.2.name, p.2.args⟩)

/-- The response-shaping logic of `createGoogleProvider(...).complete`
(lines 176-204): function calls present and non-empty ⇒ tool calls with
`content: null`; otherwise `text() || "(no response)"`. -/
def completeGoogle (resp : GeminiResponse) : LLMResponse :=
  match resp.fnCalls with
  | some (fc :: fcs) =>
    let toolCalls := geminiToolCalls (fc :: fcs)
    { content := none,
      toolCalls := some toolCalls,
      assistantMessage :=
        { role := "assistant", content := none,
          tool_calls := toolCalls, tool_call_id := none } }
  | _ =>
    let text' := if resp.text == "" then "(no response)" else resp.text
    { content := some text',
      toolCalls := none,
      assistantMessage := { role := "assistant", content := some text' } }

/-- The `LLMResponse` exclusivity contract claimed of every adapter:
`content` is null exactly when `toolCalls` is a non-empty list, and
`toolCalls` is null exactly when `content` is a string. -/
def exclusiveResponse (r : LLMResponse) : Prop :=
  (r.content = none ↔ hasToolCalls r = true) ∧
  (r.toolCalls = none ↔ r.content.isSome = true)

instance (r : LLMResponse) : Decidable (exclusiveResponse r) := by
  unfold exclusiveResponse; infer_instance

-- ── Gemini schema sanitization (google-provider.ts, lines 91-159) ──────────

/-- The keys Gemini rejects (`GEMINI_UNSUPPORTED_KEYS`). -/
def geminiUnsupportedKeys : List String :=
  ["additionalProperties", "$schema", "$defs", "$ref",
   "examples", "default", "title", "definitions"]

mutual

/-- Function `stripGeminiUnsupported`: recursively remove every unsupported key from
every object, at any nesting depth; arrays are mapped elementwise. -/
def stripGeminiUnsupported : JVal → JVal
  | .arr xs => .arr (stripList xs)
  | .obj fs => .obj (stripFields fs)
  | v => v

/-- Elementwise strip of an array's entries. -/
def stripList : List JVal → List JVal
  | [] => []
  | x :: xs => stripGeminiUnsupported x :: stripList xs

/-- Strip of an object's fields: unsupported keys are dropped, kept values
are stripped recursively. -/
def stripFields : List (String × JVal) → List (String × JVal)
  | [] => []
  | (k, v) :: fs =>
    if geminiUnsupportedKeys.contains k then stripFields fs
    else (k, stripGeminiUnsupported v) :: stripFields fs

end

/-- Remove a key from a JavaScript object (`delete o[k]`). -/
def removeField (fs : List (String × JVal)) (k : String) : List (String × JVal) :=
  fs.filter (fun p => !(p.1 == k))

/-- Overwrite the value at a key (`o[k] = v`; the key is present). -/
def setField (fs : List (String × JVal)) (k : String) (v : JVal) :
    List (String × JVal) :=
  fs.map (fun p => if p.1 == k then (k, v) else p)

mutual

/-- JavaScript string coercion of a value, as performed on the left operand
of `k in props` (`String(k)`): primitives render directly, arrays join their
coerced elements with commas, plain objects render as `[object Object]`. -/
def jsCoerce : JVal → String
  | .null => "null"
  | .bool b => if b then "true" else "false"
  | .num n => toString n
  | .str s => s
  | .arr xs => jsCoerceList xs
  | .obj _ => "[object Object]"

/-- Comma-joined coercion of array elements. -/
def jsCoerceList : List JVal → String
  | [] => ""
  | [x] => jsCoerce x
  | x :: xs => jsCoerce x ++ "," ++ jsCoerceList xs

end

/-- The string-keyed members JavaScript's `in` operator finds on
`Object.prototype`, inherited by every plain object (`JSON.parse` results
included): standard since ES5, plus the Annex B accessors present in
Node and browsers. -/
def objectPrototypeProps : List String :=
  ["constructor", "hasOwnProperty", "isPrototypeOf", "propertyIsEnumerable",
   "toLocaleString", "toString", "valueOf", "__proto__", "__defineGetter__",
   "__defineSetter__", "__lookupGetter__", "__lookupSetter__"]

/-- The non-index string keys `in` finds on an array: the own property
`length`, the `Array.prototype` methods (modern Node; the exact tail of
this list varies with the engine version but no theorem depends on its
contents), and the `Object.prototype` members further up the chain. -/
def arrayInheritedProps : List String :=
  ["length", "at", "concat", "copyWithin", "entries", "every", "fill",
   "filter", "find", "findIndex", "findLast", "findLastIndex", "flat",
   "flatMap", "forEach", "includes", "indexOf", "join", "keys",
   "lastIndexOf", "map", "pop", "push", "reduce", "reduceRight", "reverse",
   "shift", "slice", "some", "sort", "splice", "toLocaleString",
   "toReversed", "toSorted", "toSpliced", "toString", "unshift", "values",
   "with"] ++ objectPrototypeProps

/-- The JavaScript `k in v` test as evaluated by the `required` filter
callback: own keys or prototype-chain members of an object; indices,
`length` and prototype members of an array; a thrown `TypeError`
(modelled as `.error`) when `v` is a truthy primitive, since `in` requires
an object right-hand side. -/
def jsInTest (v : JVal) (k : String) : Except String Bool :=
  match v with
  | .obj fs => .ok (fs.any (fun p => p.1 == k) || objectPrototypeProps.contains k)
  | .arr xs => .ok ((List.range xs.length).any (fun i => toString i == k)
      || arrayInheritedProps.contains k)
  | _ => .error "TypeError: cannot use the in operator on a primitive"

/-- Model of `Array.prototype.filter` with a callback that may throw:
elements are tested left to right, kept when the callback answers `true`,
and the first exception aborts the whole call. -/
def filterExcept (p : JVal → Except String Bool) : List JVal → Except String (List JVal)
  | [] => .ok []
  | x :: xs =>
    match p x with
    | .error e => .error e
    | .ok b =>
      match filterExcept p xs with
      | .error e => .error e
      | .ok rest => .ok (if b then x :: rest else rest)

/-- The schema after the recursive strip and `delete stripped["type"]`. -/
def strippedParams (raw : List (String × JVal)) : List (String × JVal) :=
  removeField (stripFields raw) "type"

/-- Function `sanitizeGeminiParams` (lines 115-135): strip unsupported keys
recursively, delete the raw top-level `type`, then repair the top-level
`required` list — keep only entries that pass the `in` test against the
(stripped) truthy `properties` value, deleting the list when the result is
empty or when no truthy `properties` value exists.  The `.error` case
models the `TypeError` the filter callback throws when `properties` is a
truthy primitive and `required` is a non-empty array; it propagates out of
`complete`. -/
def sanitizeGeminiParams (raw : List (String × JVal)) :
    Except String (List (String × JVal)) :=
  match lookupField (strippedParams raw) "required" with
  | none => .ok (strippedParams raw)
  | some req =>
    match req, lookupField (strippedParams raw) "properties" with
    | .arr entries, some props =>
      if truthy props then
        match filterExcept (fun e => jsInTest props (jsCoerce e)) entries with
        | .error e => .error e
        | .ok kept =>
          .ok (if kept.isEmpty then removeField (strippedParams raw) "required"
               else setField (strippedParams raw) "required" (.arr kept))
      else .ok (removeField (strippedParams raw) "required")
    | _, _ =>
      .ok (if truthy req then removeField (strippedParams raw) "required"
           else strippedParams raw)

/-- The tool-declaration parameters object actually sent to the backend for
a raw schema (`createGoogleProvider`, line 157): `{ type: "OBJECT", ...clean }`
when sanitization completed, the propagated exception otherwise. -/
def geminiSentParams (raw : List (String × JVal)) :
    Except String (List (String × JVal)) :=
  (sanitizeGeminiParams raw).map (fun clean => ("type", .str "OBJECT") :: clean)

mutual

/-- Returns `true` iff no unsupported key occurs at any nesting depth. -/
def noUnsupported : JVal → Bool
  | .arr xs => noUnsupportedList xs
  | .obj fs => noUnsupportedFields fs
  | _ => true

/-- Predicate `noUnsupported` over an array's elements. -/
def noUnsupportedList : List JVal → Bool
  | [] => true
  | x :: xs => noUnsupported x && noUnsupportedList xs

/-- Predicate `noUnsupported` over an object's fields: no field is named by an
unsupported key, and every value is clean. -/
def noUnsupportedFields : List (String × JVal) → Bool
  | [] => true
  | (k, v) :: fs =>
    !(geminiUnsupportedKeys.contains k) && noUnsupported v && noUnsupportedFields fs

end

/-- Returns `true` iff the object's `required` list (when it is a list) only names
declared properties: every entry is a string naming a key of the object's
`properties` object. -/
def requiredOkFields (fs : List (String × JVal)) : Bool :=
  match lookupField fs "required" with
  | some (.arr entries) =>
    entries.all (fun e =>
      match e, lookupField fs "properties" with
      | .str s, some (.obj pfs) => pfs.any (fun p => p.1 == s)
      | _, _ => false)
  | _ => true

mutual

/-- The claim's universal property: at every nesting depth, every `required`
list only names declared properties of its schema object. -/
def allRequiredValid : JVal → Bool
  | .arr xs => allRequiredValidList xs
  | .obj fs => requiredOkFields fs && allRequiredValidFields fs
  | _ => true

/-- Predicate `allRequiredValid` over an array's elements. -/
def allRequiredValidList : List JVal → Bool
  | [] => true
  | x :: xs => allRequiredValid x && allRequiredValidList xs

/-- Predicate `allRequiredValid` over an object's field values. -/
def allRequiredValidFields : List (String × JVal) → Bool
  | [] => true
  | (_, v) :: fs => allRequiredValid v && allRequiredValidFields fs

end

-- ── SQLite-backed store (memory.ts) ─────────────────────────────────────────

/-- One row of the `messages` table.  `raw_json` models the serialized full
message (`JSON.stringify(msg)`) stored since the Level 2 fix; serialization
is assumed faithful, so the column holds the message value itself.
`none` models a legacy row written before the column existed. -/
structure MsgRow where
  id : Nat
  chat_id : Int
  role : String
  content : String
  raw_json : Option Msg
deriving Repr, DecidableEq

/-- One row of the `notes` table. -/
structure NoteRow where
  id : Nat
  title : String
  body : String
  ts : Nat
deriving Repr, DecidableEq

/-- The database state: both tables (rows listed in id order — inserts use
autoincrement ids), the FTS5 mirror of `notes` maintained by the triggers,
and the autoincrement counters. -/
structure Db where
  messages : List MsgRow
  nextMsgId : Nat
  notes : List NoteRow
  nextNoteId : Nat
  notesFts : List (Nat × String × String)
deriving Repr, DecidableEq

/-- The `content` column written for a message:
`typeof content === "string" ? content : JSON.stringify(content ?? "")`. -/
def msgContentCol (m : Msg) : String :=
  match m.content with
  | some s => s
  | none => "\"\""

/-- Statement `stmtInsertMsg.run(chatId, role, content, rawJson)`: append a fresh row
with the next autoincrement id. -/
def stmtInsertMsg (db : Db) (chatId : Int) (role content : String) (rawJson : Msg) :
    Db :=
  { db with
    messages := db.messages ++
      [⟨db.nextMsgId, chatId, role, content, some rawJson⟩],
    nextMsgId := db.nextMsgId + 1 }

/-- Statement `stmtDeleteMsgs.run(chatId)`: `DELETE FROM messages WHERE chat_id = ?`. -/
def stmtDeleteMsgs (db : Db) (chatId : Int) : Db :=
  { db with messages := db.messages.filter (fun r => !(r.chat_id == chatId)) }

/-- Insert a row into a list sorted by `id` ascending. -/
def insertById (r : MsgRow) : List MsgRow → List MsgRow
  | [] => [r]
  | x :: xs => if r.id ≤ x.id then r :: x :: xs else x :: insertById r xs

/-- Sort rows by `id` ascending (the `ORDER BY id ASC` of `stmtLoadMsgs`). -/
def sortById : List MsgRow → List MsgRow
  | [] => []
  | x :: xs => insertById x (sortById xs)

/-- Statement `stmtLoadMsgs.all(chatId)`:
`SELECT … FROM messages WHERE chat_id = ? ORDER BY id ASC`. -/
def stmtLoadMsgs (db : Db) (chatId : Int) : List MsgRow :=
  sortById (db.messages.filter (fun r => r.chat_id == chatId))

/-- The row-to-message mapping of `loadHistory`: restore the full message
from `raw_json` when present, else reconstruct best-effort from
role + content (legacy rows). -/
def rowToMsg (r : MsgRow) : Msg :=
  match r.raw_json with
  | some m => m
  | none => { role := r.role, content := some r.content }

/-- Function `loadHistory(chatId)` (memory.ts lines 117-127). -/
def loadHistory (db : Db) (chatId : Int) : List Msg :=
  (stmtLoadMsgs db chatId).map rowToMsg

/-- Function `saveHistory(chatId, messages)` (memory.ts lines 133-149): one
transaction that deletes the chat's rows then reinserts every message with
its full JSON payload. -/
def saveHistory (db : Db) (chatId : Int) (msgs : List Msg) : Db :=
  msgs.foldl
    (fun d m => stmtInsertMsg d chatId m.role (msgContentCol m) m)
    (stmtDeleteMsgs db chatId)

/-- Function `deleteHistory(chatId)` (memory.ts lines 154-156): runs only
`stmtDeleteMsgs`. -/
def deleteHistory (db : Db) (chatId : Int) : Db :=
  stmtDeleteMsgs db chatId

/-- Function `saveNote(title, body)` (memory.ts lines 182-202): case-insensitively
overwrite an existing note's body (and timestamp), else insert a new row;
the FTS triggers keep `notesFts` in sync (update = delete + reinsert,
insert = insert).  `now` models `unixepoch()`; the background pgvector
upsert is external and fire-and-forget. -/
def saveNote (db : Db) (now : Nat) (title body : String) : Db :=
  match db.notes.find? (fun n => n.title.toLower == title.toLower) with
  | some existing =>
    { db with
      notes := db.notes.map (fun n =>
        if n.id == existing.id then { n with body := body, ts := now } else n),
      notesFts :=
        (db.notesFts.filter (fun f => !(f.1 == existing.id))) ++
          [(existing.id, existing.title, body)] }
  | none =>
    { db with
      notes := db.notes ++ [⟨db.nextNoteId, title, body, now⟩],
      nextNoteId := db.nextNoteId + 1,
      notesFts := db.notesFts ++ [(db.nextNoteId, title, body)] }

-- ── Background fact extraction (agent.ts, extractAndSaveFacts) ──────────────

/-- The observable outcome of the background extraction call:
the API call threw, or it answered with content whose `JSON.parse` result is
`parsed` (`none` = the parse threw). -/
inductive ExtractionOutcome where
  | thrown
  | responded (parsed : Option JVal)

/-- The fact array selected from the parsed response (lines 200-211): the
value itself when it is an array, else its `facts` field when that is an
array, else nothing. -/
def factsOf (parsed : JVal) : List JVal :=
  match parsed with
  | .arr xs => xs
  | .obj fs =>
    match lookupField fs "facts" with
    | some (.arr xs) => xs
    | _ => []
  | _ => []

/-- The save loop over `facts.slice(0, 5)` (lines 213-218): a fact with
truthy string `title` and `body` is saved trimmed; a falsy field skips the
fact; accessing `.title` on `null` or calling `.trim()` on a truthy
non-string throws, which the surrounding catch swallows — processing stops
with the notes saved so far kept. -/
def saveFacts (db : Db) (now : Nat) : List JVal → Db
  | [] => db
  | f :: fs =>
    match f with
    | .obj fields =>
      match lookupField fields "title", lookupField fields "body" with
      | some tv, some bv =>
        if truthy tv && truthy bv then
          match tv, bv with
          | .str t, .str b => saveFacts (saveNote db now t.trim b.trim) now fs
          | _, _ => db
        else saveFacts db now fs
      | _, _ => saveFacts db now fs
    | .null => db
    | _ => saveFacts db now fs

/-- Function `extractAndSaveFacts(userMessage, assistantReply)` (lines 172-223), as a
state transformer on the notes store: nothing happens without an API key, on
a thrown call, or on unparseable content; otherwise up to five well-formed
facts are saved.  Every failure is caught inside — the function is total and
returns no error. -/
def extractAndSaveFacts (hasApiKey : Bool) (outcome : ExtractionOutcome)
    (now : Nat) (db : Db) : Db :=
  if !hasApiKey then db
  else
    match outcome with
    | .thrown => db
    | .responded none => db
    | .responded (some parsed) => saveFacts db now ((factsOf parsed).take 5)

/-- One full turn including the detached background extraction
(`void extractAndSaveFacts(...).catch(() => {})`, line 266): the
`{reply, updatedHistory}` pair is computed and returned by the loop; the
extraction runs only on the normal-reply path and only ever touches the
notes store. -/
def runAgentTurnAndExtract (provider : List Msg → LLMResponse)
    (dispatch : String → String → String) (maxIterations : Nat)
    (systemPrompt : String) (history : List Msg) (userMessage : String)
    (hasApiKey : Bool) (outcome : ExtractionOutcome) (now : Nat) (db : Db) :
    (String × List Msg) × Db :=
  let r := runAgentTurnStats provider dispatch maxIterations systemPrompt history userMessage
  if r.hitCap then ((r.reply, r.messagesOut.drop 1), db)
  else ((r.reply, r.messagesOut.drop 1), extractAndSaveFacts hasApiKey outcome now db)

-- ── Generic helper lemmas ───────────────────────────────────────────────────

/-- The string `p` starts the string `s`. -/
def strStartsWith (s p : String) : Prop := ∃ rest, s = p ++ rest

theorem strStartsWith_of_split (s p q rest : String) (h : s = (p ++ q) ++ rest) :
    strStartsWith s p := ⟨q ++ rest, by rw [h, String.append_assoc]⟩

theorem hasToolCalls_eq_true_iff (r : LLMResponse) :
    hasToolCalls r = true ↔ ∃ tc tcs, r.toolCalls = some (tc :: tcs) := by
  unfold hasToolCalls
  cases h : r.toolCalls with
  | none => simp
  | some l => cases l with
    | nil => simp
    | cons tc tcs => simp

theorem runLoop_calls_le (provider : List Msg → LLMResponse)
    (dispatch : String → String → String) :
    ∀ fuel messages, (runLoop provider dispatch fuel messages).calls ≤ fuel := by
  intro fuel
  induction fuel with
  | zero => intro messages; simp [runLoop]
  | succ n ih =>
    intro messages
    cases h2 : (provider messages).toolCalls with
    | none => simp [runLoop, h2]
    | some l =>
      cases l with
      | nil => simp [runLoop, h2]
      | cons tc tcs =>
        simp only [runLoop, h2]
        exact Nat.add_le_add_right (ih _) 1

theorem runLoop_reply_cases (provider : List Msg → LLMResponse)
    (dispatch : String → String → String) :
    ∀ fuel messages,
      (runLoop provider dispatch fuel messages).reply = maxIterWarning ∨
      ∃ ms, hasToolCalls (provider ms) = false ∧
        (runLoop provider dispatch fuel messages).reply =
          (provider ms).content.getD "(no response)" := by
  intro fuel
  induction fuel with
  | zero => intro messages; left; simp [runLoop]
  | succ n ih =>
    intro messages
    cases h2 : (provider messages).toolCalls with
    | none =>
      right
      exact ⟨messages, by simp [hasToolCalls, h2], by simp [runLoop, h2]⟩
    | some l =>
      cases l with
      | nil =>
        right
        exact ⟨messages, by simp [hasToolCalls, h2], by simp [runLoop, h2]⟩
      | cons tc tcs =>
        rcases ih (messages ++ (provider messages).assistantMessage ::
            toolResultMsgs dispatch (tc :: tcs)) with h | ⟨ms, hms, hr⟩
        · left; simp only [runLoop, h2]; simpa using h
        · right; exact ⟨ms, hms, by simp only [runLoop, h2]; simpa using hr⟩

theorem runLoop_all_toolCalls (provider : List Msg → LLMResponse)
    (dispatch : String → String → String)
    (hall : ∀ ms, hasToolCalls (provider ms) = true) :
    ∀ fuel messages,
      (runLoop provider dispatch fuel messages).calls = fuel ∧
      (runLoop provider dispatch fuel messages).reply = maxIterWarning ∧
      (runLoop provider dispatch fuel messages).hitCap = true := by
  intro fuel
  induction fuel with
  | zero => intro messages; simp [runLoop]
  | succ n ih =>
    intro messages
    obtain ⟨tc, tcs, h2⟩ := (hasToolCalls_eq_true_iff _).1 (hall messages)
    have hres := ih (messages ++ (provider messages).assistantMessage ::
      toolResultMsgs dispatch (tc :: tcs))
    refine ⟨?_, ?_, ?_⟩ <;>
      simp [runLoop, h2, hres.1, hres.2.1, hres.2.2]

theorem toolResultMsgs_role (dispatch : String → String → String)
    (calls : List ToolCall) :
    ∀ m ∈ toolResultMsgs dispatch calls, m.role = "tool" := by
  intro m hm
  simp only [toolResultMsgs, List.mem_map] at hm
  obtain ⟨c, _, hc⟩ := hm
  rw [← hc]

theorem runLoop_messagesOut_shape (provider : List Msg → LLMResponse)
    (dispatch : String → String → String) :
    ∀ fuel messages, ∃ rest,
      (runLoop provider dispatch fuel messages).messagesOut = messages ++ rest ∧
      ∀ m ∈ rest, (∃ ms, m = (provider ms).assistantMessage) ∨ m.role = "tool" := by
  intro fuel
  induction fuel with
  | zero => intro messages; exact ⟨[], by simp [runLoop], by simp⟩
  | succ n ih =>
    intro messages
    cases h2 : (provider messages).toolCalls with
    | none =>
      refine ⟨[(provider messages).assistantMessage], by simp [runLoop, h2], ?_⟩
      intro m hm
      simp only [List.mem_singleton] at hm
      exact Or.inl ⟨messages, hm⟩
    | some l =>
      cases l with
      | nil =>
        refine ⟨[(provider messages).assistantMessage], by simp [runLoop, h2], ?_⟩
        intro m hm
        simp only [List.mem_singleton] at hm
        exact Or.inl ⟨messages, hm⟩
      | cons tc tcs =>
        obtain ⟨rest, heq, hmem⟩ := ih (messages ++ (provider messages).assistantMessage ::
          toolResultMsgs dispatch (tc :: tcs))
        refine ⟨(provider messages).assistantMessage ::
          (toolResultMsgs dispatch (tc :: tcs) ++ rest), ?_, ?_⟩
        · simp only [runLoop, h2]
          simp only [List.append_assoc, List.cons_append, List.nil_append] at heq ⊢
          rw [heq]
        · intro m hm
          simp only [List.mem_cons, List.mem_append] at hm
          rcases hm with hm | hm | hm
          · exact Or.inl ⟨messages, hm⟩
          · exact Or.inr (toolResultMsgs_role dispatch _ m hm)
          · exact hmem m hm

-- ── Stub instances used by the witnesses ────────────────────────────────────

/-- A stub provider that always answers with plain text `"hello"`. -/
def stubTextProvider : List Msg → LLMResponse := fun _ =>
  { content := some "hello", toolCalls := none,
    assistantMessage := { role := "assistant", content := some "hello" } }

/-- A stub provider that always requests one tool call. -/
def stubToolProvider : List Msg → LLMResponse := fun _ =>
  { content := none, toolCalls := some [⟨"call-1", "echo", "{}"⟩],
    assistantMessage :=
      { role := "assistant", content := none,
        tool_calls := [⟨"call-1", "echo", "{}"⟩], tool_call_id := none } }

/-- A stub dispatcher. -/
def stubDispatch : String → String → String := fun _ _ => "ok"

-- ── C1 ──────────────────────────────────────────────────────────────────────

/-- C1: For every provider behaviour satisfying the adapter exclusivity
contract, every history and every input, `runAgentTurn` returns either the
content of the provider's terminal no-tool-calls response, or the fixed
max-iteration warning — never a mixture, and the terminal step never carries
both content and tool calls. -/
theorem runAgentTurn_reply_dichotomy (provider : List Msg → LLMResponse)
    (dispatch : String → String → String) (maxIterations : Nat)
    (systemPrompt : String) (history : List Msg) (userMessage : String)
    (hprov : ∀ ms, exclusiveResponse (provider ms)) :
    (runAgentTurn provider dispatch maxIterations systemPrompt history userMessage).1
        = maxIterWarning ∨
    ∃ ms s, hasToolCalls (provider ms) = false ∧ (provider ms).content = some s ∧
      (runAgentTurn provider dispatch maxIterations systemPrompt history userMessage).1
        = s := by
  rcases runLoop_reply_cases provider dispatch maxIterations
      (systemMsg systemPrompt :: (history ++ [userMsg userMessage])) with h | ⟨ms, hms, hr⟩
  · exact Or.inl h
  · right
    have hcontent : (provider ms).content ≠ none := by
      intro hc
      have := ((hprov ms).1).1 hc
      rw [hms] at this
      exact Bool.false_ne_true this
    obtain ⟨s, hs⟩ := Option.ne_none_iff_exists'.1 hcontent
    refine ⟨ms, s, hms, hs, ?_⟩
    rw [runAgentTurn]
    simp only [runAgentTurnStats] at hr ⊢
    rw [hr, hs, Option.getD_some]

/-- Witness for C1: a provider that always answers `"hello"`. -/
theorem runAgentTurn_reply_dichotomy_witness :
    (runAgentTurn stubTextProvider stubDispatch 5 "sys" [] "hi").1 = maxIterWarning ∨
    ∃ ms s, hasToolCalls (stubTextProvider ms) = false ∧
      (stubTextProvider ms).content = some s ∧
      (runAgentTurn stubTextProvider stubDispatch 5 "sys" [] "hi").1 = s :=
  runAgentTurn_reply_dichotomy stubTextProvider stubDispatch 5 "sys" [] "hi"
    (fun _ => ⟨by simp [stubTextProvider, hasToolCalls], by simp [stubTextProvider]⟩)

-- ── C2 ──────────────────────────────────────────────────────────────────────

/-- C2: The provider is called at most `AGENT_MAX_ITERATIONS` times per
turn; and with the cap at 3 and a provider that always returns tool calls,
the turn makes exactly 3 provider calls and terminates with the fixed
warning — a 4th call never happens. -/
theorem runAgentTurn_iteration_cap (provider : List Msg → LLMResponse)
    (dispatch : String → String → String) (systemPrompt : String)
    (history : List Msg) (userMessage : String) :
    (∀ maxIterations,
      (runAgentTurnStats provider dispatch maxIterations systemPrompt history
        userMessage).calls ≤ maxIterations) ∧
    ((∀ ms, hasToolCalls (provider ms) = true) →
      (runAgentTurnStats provider dispatch 3 systemPrompt history userMessage).calls
          = 3 ∧
      (runAgentTurnStats provider dispatch 3 systemPrompt history userMessage).reply
          = maxIterWarning) := by
  constructor
  · intro maxIterations
    exact runLoop_calls_le provider dispatch maxIterations _
  · intro hall
    have := runLoop_all_toolCalls provider dispatch hall 3
      (systemMsg systemPrompt :: (history ++ [userMsg userMessage]))
    exact ⟨this.1, this.2.1⟩

/-- Witness for C2: a stub provider that always requests a tool call makes
exactly 3 calls under a cap of 3 and yields the warning. -/
theorem runAgentTurn_iteration_cap_witness :
    (runAgentTurnStats stubToolProvider stubDispatch 3 "sys" [] "hi").calls = 3 ∧
    (runAgentTurnStats stubToolProvider stubDispatch 3 "sys" [] "hi").reply
        = maxIterWarning :=
  (runAgentTurn_iteration_cap stubToolProvider stubDispatch "sys" [] "hi").2
    (fun _ => rfl)

-- ── C3 ──────────────────────────────────────────────────────────────────────

/-- C3: `dispatchTool` never raises (it is a total function into
`String`), and for every name and raw-argument string: an unregistered name
yields a string starting with `"Error: unknown tool"`; unparseable arguments
yield a string starting with `"Error: could not parse arguments"`; a thrown
tool execution yields a string starting with `"Error executing"`; otherwise
the tool's string result is returned as-is. -/
theorem dispatchTool_behaviour (parseJson : String → Option JVal)
    (tools : List ToolDefinition) (name rawArgs : String) :
    (tools.find? (fun t => t.spec.name == name) = none →
      strStartsWith (dispatchTool parseJson tools name rawArgs)
        "Error: unknown tool") ∧
    (∀ tool, tools.find? (fun t => t.spec.name == name) = some tool →
      parseJson rawArgs = none →
      strStartsWith (dispatchTool parseJson tools name rawArgs)
        "Error: could not parse arguments") ∧
    (∀ tool args err, tools.find? (fun t => t.spec.name == name) = some tool →
      parseJson rawArgs = some args → tool.execute args = .error err →
      strStartsWith (dispatchTool parseJson tools name rawArgs)
        "Error executing") ∧
    (∀ tool args res, tools.find? (fun t => t.spec.name == name) = some tool →
      parseJson rawArgs = some args → tool.execute args = .ok res →
      dispatchTool parseJson tools name rawArgs = res) := by
  refine ⟨?_, ?_, ?_, ?_⟩
  · intro h
    apply strStartsWith_of_split _ _ " \"" (name ++ "\"")
    rw [show ("Error: unknown tool" ++ " \"" : String) = "Error: unknown tool \"" from rfl]
    simp [dispatchTool, h, String.append_assoc]
  · intro tool hfind hparse
    apply strStartsWith_of_split _ _ " as JSON: " rawArgs
    rw [show ("Error: could not parse arguments" ++ " as JSON: " : String)
      = "Error: could not parse arguments as JSON: " from rfl]
    simp [dispatchTool, hfind, hparse]
  · intro tool args err hfind hparse hexec
    apply strStartsWith_of_split _ _ " \"" (name ++ "\": " ++ err)
    rw [show ("Error executing" ++ " \"" : String) = "Error executing \"" from rfl]
    simp [dispatchTool, hfind, hparse, hexec, String.append_assoc]
  · intro tool args res hfind hparse hexec
    simp [dispatchTool, hfind, hparse, hexec]

/-- A demo JSON-parse oracle: accepts only the text `"{}"`. -/
def demoParse : String → Option JVal := fun s =>
  if s == "{}" then some (.obj []) else none

/-- A demo tool that succeeds. -/
def demoEchoTool : ToolDefinition :=
  ⟨⟨"echo", "echoes", []⟩, fun _ => .ok "echoed"⟩

/-- A demo tool whose execution always throws. -/
def demoBoomTool : ToolDefinition :=
  ⟨⟨"boom", "throws", []⟩, fun _ => .error "TypeError: boom"⟩

/-- A demo registry. -/
def demoTools : List ToolDefinition := [demoEchoTool, demoBoomTool]

/-- Witness for C3: all four outcomes on concrete inputs — unregistered
`"foo_bar"`, malformed `"\x7bbad json"`, a throwing tool, a succeeding tool. -/
theorem dispatchTool_behaviour_witness :
    strStartsWith (dispatchTool demoParse demoTools "foo_bar" "{}")
      "Error: unknown tool" ∧
    strStartsWith (dispatchTool demoParse demoTools "echo" "\x7bbad json")
      "Error: could not parse arguments" ∧
    strStartsWith (dispatchTool demoParse demoTools "boom" "{}")
      "Error executing" ∧
    dispatchTool demoParse demoTools "echo" "{}" = "echoed" :=
  ⟨(dispatchTool_behaviour demoParse demoTools "foo_bar" "{}").1 rfl,
   (dispatchTool_behaviour demoParse demoTools "echo" "\x7bbad json").2.1
     demoEchoTool rfl rfl,
   (dispatchTool_behaviour demoParse demoTools "boom" "{}").2.2.1
     demoBoomTool (.obj []) "TypeError: boom" rfl rfl rfl,
   (dispatchTool_behaviour demoParse demoTools "echo" "{}").2.2.2
     demoEchoTool (.obj []) "echoed" rfl rfl rfl⟩

-- ── C4 ──────────────────────────────────────────────────────────────────────

/-- C4: In an iteration whose model response carries `k` tool calls, the
loop appends exactly the `k` tool-result messages after the assistant
message and recurses on that list; the results are in original request order
(the i-th result carries the i-th request's id), and if the request ids are
pairwise distinct so are the result ids.  (`Promise.all` resolves to results
in request order, whatever the completion order.) -/
theorem runLoop_toolResults_order (provider : List Msg → LLMResponse)
    (dispatch : String → String → String) (fuel : Nat) (messages : List Msg)
    (tc : ToolCall) (tcs : List ToolCall)
    (h : (provider messages).toolCalls = some (tc :: tcs)) :
    (runLoop provider dispatch (fuel + 1) messages =
      ⟨(runLoop provider dispatch fuel ((messages ++ [(provider messages).assistantMessage])
          ++ toolResultMsgs dispatch (tc :: tcs))).reply,
       (runLoop provider dispatch fuel ((messages ++ [(provider messages).assistantMessage])
          ++ toolResultMsgs dispatch (tc :: tcs))).messagesOut,
       (runLoop provider dispatch fuel ((messages ++ [(provider messages).assistantMessage])
          ++ toolResultMsgs dispatch (tc :: tcs))).calls + 1,
       (runLoop provider dispatch fuel ((messages ++ [(provider messages).assistantMessage])
          ++ toolResultMsgs dispatch (tc :: tcs))).hitCap⟩) ∧
    (toolResultMsgs dispatch (tc :: tcs)).length = (tc :: tcs).length ∧
    (toolResultMsgs dispatch (tc :: tcs)).map Msg.tool_call_id
        = (tc :: tcs).map (fun c => some c.id) ∧
    (((tc :: tcs).map ToolCall.id).Nodup →
      ((toolResultMsgs dispatch (tc :: tcs)).map Msg.tool_call_id).Nodup) := by
  have hmap : (toolResultMsgs dispatch (tc :: tcs)).map Msg.tool_call_id
      = (tc :: tcs).map (fun c => some c.id) := by
    simp [toolResultMsgs, List.map_map]
  refine ⟨?_, ?_, hmap, ?_⟩
  · simp only [runLoop, h]
  · simp [toolResultMsgs]
  · intro hnd
    rw [hmap]
    have : (tc :: tcs).map (fun c => some c.id)
        = ((tc :: tcs).map ToolCall.id).map some := by
      simp [List.map_map]
    rw [this]
    exact hnd.map (Option.some_injective _)

/-- Witness for C4: one iteration with a single concrete tool call. -/
theorem runLoop_toolResults_order_witness :
    (runLoop stubToolProvider stubDispatch 1 [] =
      ⟨(runLoop stubToolProvider stubDispatch 0 (([] ++ [(stubToolProvider []).assistantMessage])
          ++ toolResultMsgs stubDispatch [⟨"call-1", "echo", "{}"⟩])).reply,
       (runLoop stubToolProvider stubDispatch 0 (([] ++ [(stubToolProvider []).assistantMessage])
          ++ toolResultMsgs stubDispatch [⟨"call-1", "echo", "{}"⟩])).messagesOut,
       (runLoop stubToolProvider stubDispatch 0 (([] ++ [(stubToolProvider []).assistantMessage])
          ++ toolResultMsgs stubDispatch [⟨"call-1", "echo", "{}"⟩])).calls + 1,
       (runLoop stubToolProvider stubDispatch 0 (([] ++ [(stubToolProvider []).assistantMessage])
          ++ toolResultMsgs stubDispatch [⟨"call-1", "echo", "{}"⟩])).hitCap⟩) ∧
    (toolResultMsgs stubDispatch [⟨"call-1", "echo", "{}"⟩]).length
        = ([⟨"call-1", "echo", "{}"⟩] : List ToolCall).length ∧
    (toolResultMsgs stubDispatch [⟨"call-1", "echo", "{}"⟩]).map Msg.tool_call_id
        = ([⟨"call-1", "echo", "{}"⟩] : List ToolCall).map (fun c => some c.id) ∧
    ((([⟨"call-1", "echo", "{}"⟩] : List ToolCall).map ToolCall.id).Nodup →
      ((toolResultMsgs stubDispatch [⟨"call-1", "echo", "{}"⟩]).map
        Msg.tool_call_id).Nodup) :=
  runLoop_toolResults_order stubToolProvider stubDispatch 0 []
    ⟨"call-1", "echo", "{}"⟩ [] rfl

-- ── C5 ──────────────────────────────────────────────────────────────────────

/-- C5: Every provider adapter (OpenAI-compatible, Anthropic, Google)
returns an `LLMResponse` with exactly one of `content` / `toolCalls`
non-null: `content` is null exactly when `toolCalls` is a non-empty list,
and `toolCalls` is null exactly when `content` is a string. -/
theorem providers_exclusive_content_toolCalls :
    (∀ resp r, completeOpenAI resp = .ok r → exclusiveResponse r) ∧
    (∀ resp, exclusiveResponse (completeAnthropic resp)) ∧
    (∀ resp, exclusiveResponse (completeGoogle resp)) := by
  refine ⟨?_, ?_, ?_⟩
  · intro resp r h
    obtain ⟨choices⟩ := resp
    cases choices with
    | nil => simp [completeOpenAI] at h
    | cons choice more =>
      cases htc : choice.message.tool_calls with
      | none =>
        simp [completeOpenAI, htc] at h
        rw [← h]
        simp [exclusiveResponse, hasToolCalls]
      | some l =>
        cases l with
        | nil =>
          simp [completeOpenAI, htc] at h
          rw [← h]
          simp [exclusiveResponse, hasToolCalls]
        | cons tc tcs =>
          simp [completeOpenAI, htc] at h
          rw [← h]
          simp [exclusiveResponse, hasToolCalls]
  · intro resp
    cases h : anthropicToolUses resp with
    | nil => simp [completeAnthropic, h, exclusiveResponse, hasToolCalls]
    | cons tu tus => simp [completeAnthropic, h, exclusiveResponse, hasToolCalls]
  · intro resp
    cases h : resp.fnCalls with
    | none => simp [completeGoogle, h, exclusiveResponse, hasToolCalls]
    | some l =>
      cases l with
      | nil => simp [completeGoogle, h, exclusiveResponse, hasToolCalls]
      | cons fc fcs =>
        simp [completeGoogle, h, exclusiveResponse, hasToolCalls, geminiToolCalls,
          List.enum_cons]

/-- A demo OpenAI response with a plain text answer. -/
def demoOAIResponse : OAIResponse := ⟨[⟨⟨some "hi", none⟩⟩]⟩

/-- Witness for C5: the exclusivity contract evaluated on one concrete
response per adapter. -/
theorem providers_exclusive_content_toolCalls_witness :
    exclusiveResponse
      { content := some "hi", toolCalls := none,
        assistantMessage := oaiToCanonical ⟨some "hi", none⟩ } ∧
    exclusiveResponse (completeAnthropic ⟨[.text "yo"]⟩) ∧
    exclusiveResponse (completeGoogle ⟨none, "hey"⟩) :=
  ⟨providers_exclusive_content_toolCalls.1 demoOAIResponse _ rfl,
   providers_exclusive_content_toolCalls.2.1 ⟨[.text "yo"]⟩,
   providers_exclusive_content_toolCalls.2.2 ⟨none, "hey"⟩⟩

-- ── C8 ──────────────────────────────────────────────────────────────────────

/-- C8: The `{reply, updatedHistory}` pair of a turn is exactly
`runAgentTurn`'s value and is identical for any two outcomes of the
background fact extraction (success, thrown error, parse failure), any API
key state, any clock and any notes store: the detached extraction can only
touch the notes store, and no extraction failure propagates out of the
turn. -/
theorem turn_reply_independent_of_extraction (provider : List Msg → LLMResponse)
    (dispatch : String → String → String) (maxIterations : Nat)
    (systemPrompt : String) (history : List Msg) (userMessage : String)
    (hasApiKey1 hasApiKey2 : Bool) (o1 o2 : ExtractionOutcome)
    (now1 now2 : Nat) (db1 db2 : Db) :
    (runAgentTurnAndExtract provider dispatch maxIterations systemPrompt history
        userMessage hasApiKey1 o1 now1 db1).1
      = runAgentTurn provider dispatch maxIterations systemPrompt history userMessage ∧
    (runAgentTurnAndExtract provider dispatch maxIterations systemPrompt history
        userMessage hasApiKey1 o1 now1 db1).1
      = (runAgentTurnAndExtract provider dispatch maxIterations systemPrompt history
        userMessage hasApiKey2 o2 now2 db2).1 := by
  cases h : (runAgentTurnStats provider dispatch maxIterations systemPrompt history
      userMessage).hitCap <;>
    simp [runAgentTurnAndExtract, runAgentTurn, h]

-- ── C10 ─────────────────────────────────────────────────────────────────────

/-- C10: For both terminal outcomes, `updatedHistory` is the prior
history, unchanged, immediately followed by the new user message and then
only provider-assistant and tool-result messages; the injected system-prompt
message is not an element of `updatedHistory` (given that it was not already
an element of the prior history, and that the provider's assistant messages
are not system-role — true of every adapter). -/
theorem runAgentTurn_history_frame (provider : List Msg → LLMResponse)
    (dispatch : String → String → String) (maxIterations : Nat)
    (systemPrompt : String) (history : List Msg) (userMessage : String)
    (hassistant : ∀ ms, ((provider ms).assistantMessage).role ≠ "system")
    (hhist : systemMsg systemPrompt ∉ history) :
    ∃ rest,
      (runAgentTurn provider dispatch maxIterations systemPrompt history
        userMessage).2 = history ++ userMsg userMessage :: rest ∧
      systemMsg systemPrompt ∉
        (runAgentTurn provider dispatch maxIterations systemPrompt history
          userMessage).2 := by
  obtain ⟨rest, heq, hmem⟩ := runLoop_messagesOut_shape provider dispatch maxIterations
    (systemMsg systemPrompt :: (history ++ [userMsg userMessage]))
  have hdrop : (runAgentTurn provider dispatch maxIterations systemPrompt history
      userMessage).2 = history ++ userMsg userMessage :: rest := by
    rw [runAgentTurn]
    simp only [runAgentTurnStats] at heq ⊢
    rw [heq]
    simp
  refine ⟨rest, hdrop, ?_⟩
  rw [hdrop]
  intro hin
  rcases List.mem_append.1 hin with hin | hin
  · exact hhist hin
  · rcases List.mem_cons.1 hin with hin | hin
    · have : "system" = "user" := congrArg Msg.role hin
      simp at this
    · rcases hmem _ hin with ⟨ms, hms⟩ | hrole
      · exact hassistant ms (by rw [← hms]; rfl)
      · simp [systemMsg] at hrole

/-- Witness for C10: the text stub provider, empty prior history. -/
theorem runAgentTurn_history_frame_witness :
    ∃ rest,
      (runAgentTurn stubTextProvider stubDispatch 5 "sys" [] "hi").2
        = [] ++ userMsg "hi" :: rest ∧
      systemMsg "sys" ∉ (runAgentTurn stubTextProvider stubDispatch 5 "sys" [] "hi").2 :=
  runAgentTurn_history_frame stubTextProvider stubDispatch 5 "sys" [] "hi"
    (fun _ => by simp [stubTextProvider]) (by simp)

-- ── Store lemmas ────────────────────────────────────────────────────────────

/-- The rows `saveHistory` inserts for a message list, starting at a given
autoincrement id. -/
def mkRows (startId : Nat) (chatId : Int) : List Msg → List MsgRow
  | [] => []
  | m :: ms =>
    ⟨startId, chatId, m.role, msgContentCol m, some m⟩ :: mkRows (startId + 1) chatId ms

theorem saveHistory_fold_messages (chatId : Int) :
    ∀ (msgs : List Msg) (d0 : Db),
      (msgs.foldl (fun d m => stmtInsertMsg d chatId m.role (msgContentCol m) m)
        d0).messages = d0.messages ++ mkRows d0.nextMsgId chatId msgs := by
  intro msgs
  induction msgs with
  | nil => intro d0; simp [mkRows]
  | cons m ms ih =>
    intro d0
    simp only [List.foldl_cons]
    rw [ih]
    simp [stmtInsertMsg, mkRows]

theorem mkRows_mem (chatId : Int) :
    ∀ (msgs : List Msg) (n : Nat) (r : MsgRow), r ∈ mkRows n chatId msgs →
      r.chat_id = chatId ∧ n ≤ r.id := by
  intro msgs
  induction msgs with
  | nil => intro n r hr; simp [mkRows] at hr
  | cons m ms ih =>
    intro n r hr
    rcases List.mem_cons.1 hr with hr | hr
    · subst hr; exact ⟨rfl, Nat.le_refl n⟩
    · obtain ⟨h1, h2⟩ := ih (n + 1) r hr
      exact ⟨h1, Nat.le_of_succ_le h2⟩

theorem mkRows_sorted (chatId : Int) :
    ∀ (msgs : List Msg) (n : Nat),
      (mkRows n chatId msgs).Pairwise (fun a b => a.id ≤ b.id) := by
  intro msgs
  induction msgs with
  | nil => intro n; simp [mkRows]
  | cons m ms ih =>
    intro n
    rw [mkRows, List.pairwise_cons]
    refine ⟨?_, ih (n + 1)⟩
    intro r hr
    exact Nat.le_of_succ_le (mkRows_mem chatId ms (n + 1) r hr).2

theorem mkRows_map_rowToMsg (chatId : Int) :
    ∀ (msgs : List Msg) (n : Nat), (mkRows n chatId msgs).map rowToMsg = msgs := by
  intro msgs
  induction msgs with
  | nil => intro n; simp [mkRows]
  | cons m ms ih => intro n; simp [mkRows, rowToMsg, ih]

theorem insertById_of_le (r : MsgRow) (l : List MsgRow)
    (h : ∀ x ∈ l, r.id ≤ x.id) : insertById r l = r :: l := by
  cases l with
  | nil => rfl
  | cons x xs => simp [insertById, h x (List.mem_cons_self x xs)]

theorem sortById_eq_self :
    ∀ l : List MsgRow, l.Pairwise (fun a b => a.id ≤ b.id) → sortById l = l := by
  intro l
  induction l with
  | nil => intro _; rfl
  | cons x xs ih =>
    intro h
    obtain ⟨hx, hxs⟩ := List.pairwise_cons.1 h
    rw [sortById, ih hxs, insertById_of_le x xs hx]

theorem filter_delete_self (l : List MsgRow) (chatId : Int) :
    (l.filter (fun r => !(r.chat_id == chatId))).filter
      (fun r => r.chat_id == chatId) = [] := by
  rw [List.filter_eq_nil_iff]
  intro r hr
  have := (List.mem_filter.1 hr).2
  simp at this ⊢
  exact this

theorem filter_delete_other (l : List MsgRow) (chatId cid : Int) (h : cid ≠ chatId) :
    (l.filter (fun r => !(r.chat_id == chatId))).filter (fun r => r.chat_id == cid)
      = l.filter (fun r => r.chat_id == cid) := by
  induction l with
  | nil => rfl
  | cons x xs ih =>
    by_cases hx : x.chat_id = cid
    · have hx2 : ¬(x.chat_id = chatId) := by rw [hx]; exact h
      simp [List.filter_cons, hx, hx2, ih, h, Ne.symm h]
    · by_cases hx2 : x.chat_id = chatId <;>
        simp [List.filter_cons, hx, hx2, ih, h, Ne.symm h]

-- ── C6 ──────────────────────────────────────────────────────────────────────

/-- C6: Round-trip — for every database state, chat id and message list,
`loadHistory` after `saveHistory` returns exactly the saved list: same
length, same order, every field of every message (the whole message is
persisted in `raw_json` and restored from it). -/
theorem loadHistory_saveHistory_roundTrip (db : Db) (chatId : Int)
    (msgs : List Msg) : loadHistory (saveHistory db chatId msgs) chatId = msgs := by
  have h1 : (saveHistory db chatId msgs).messages
      = (stmtDeleteMsgs db chatId).messages ++ mkRows db.nextMsgId chatId msgs := by
    rw [saveHistory, saveHistory_fold_messages]
    rfl
  rw [loadHistory, stmtLoadMsgs, h1, List.filter_append, stmtDeleteMsgs]
  simp only
  rw [filter_delete_self]
  have hall : (mkRows db.nextMsgId chatId msgs).filter
      (fun r => r.chat_id == chatId) = mkRows db.nextMsgId chatId msgs := by
    rw [List.filter_eq_self]
    intro r hr
    simp [(mkRows_mem chatId msgs db.nextMsgId r hr).1]
  rw [List.nil_append, hall, sortById_eq_self _ (mkRows_sorted chatId msgs db.nextMsgId),
    mkRows_map_rowToMsg]

-- ── C9 ──────────────────────────────────────────────────────────────────────

/-- C9: `deleteHistory` (the `/clear` path) removes only the given
chat's conversation rows: the notes store and its full-text index are
untouched, the chat's own history becomes empty, and every other chat's
stored history is exactly what it was before. -/
theorem deleteHistory_frame (db : Db) (chatId : Int) :
    (deleteHistory db chatId).notes = db.notes ∧
    (deleteHistory db chatId).notesFts = db.notesFts ∧
    loadHistory (deleteHistory db chatId) chatId = [] ∧
    ∀ cid, cid ≠ chatId →
      loadHistory (deleteHistory db chatId) cid = loadHistory db cid := by
  refine ⟨rfl, rfl, ?_, ?_⟩
  · rw [loadHistory, stmtLoadMsgs, deleteHistory, stmtDeleteMsgs]
    simp only
    rw [filter_delete_self]
    rfl
  · intro cid hcid
    rw [loadHistory, stmtLoadMsgs, deleteHistory, stmtDeleteMsgs, loadHistory,
      stmtLoadMsgs]
    simp only
    rw [filter_delete_other _ _ _ hcid]

/-- A small demo database with two chats and one note. -/
def demoDb : Db :=
  { messages := [⟨0, 1, "user", "hi", some (userMsg "hi")⟩,
                 ⟨1, 2, "user", "yo", some (userMsg "yo")⟩],
    nextMsgId := 2,
    notes := [⟨0, "t", "b", 5⟩],
    nextNoteId := 1,
    notesFts := [(0, "t", "b")] }

/-- Witness for C9: clearing chat 1 leaves the notes, the index and chat 2's
history intact. -/
theorem deleteHistory_frame_witness :
    (deleteHistory demoDb 1).notes = demoDb.notes ∧
    (deleteHistory demoDb 1).notesFts = demoDb.notesFts ∧
    loadHistory (deleteHistory demoDb 1) 1 = [] ∧
    loadHistory (deleteHistory demoDb 1) 2 = loadHistory demoDb 2 :=
  ⟨(deleteHistory_frame demoDb 1).1, (deleteHistory_frame demoDb 1).2.1,
   (deleteHistory_frame demoDb 1).2.2.1,
   (deleteHistory_frame demoDb 1).2.2.2 2 (by decide)⟩

-- ── Sanitization lemmas ─────────────────────────────────────────────────────

mutual

theorem strip_noUnsupported : ∀ v, noUnsupported (stripGeminiUnsupported v) = true
  | .null => rfl
  | .bool _ => rfl
  | .num _ => rfl
  | .str _ => rfl
  | .arr xs => by
    simp only [stripGeminiUnsupported, noUnsupported]
    exact stripList_noUnsupported xs
  | .obj fs => by
    simp only [stripGeminiUnsupported, noUnsupported]
    exact stripFields_noUnsupported fs

theorem stripList_noUnsupported : ∀ xs, noUnsupportedList (stripList xs) = true
  | [] => rfl
  | x :: xs => by
    simp only [stripList, noUnsupportedList]
    rw [strip_noUnsupported x, stripList_noUnsupported xs]
    rfl

theorem stripFields_noUnsupported : ∀ fs, noUnsupportedFields (stripFields fs) = true
  | [] => rfl
  | (k, v) :: fs => by
    rw [stripFields]
    cases hc : geminiUnsupportedKeys.contains k with
    | true => simp only [hc, if_true]; exact stripFields_noUnsupported fs
    | false =>
      simp only [hc, if_false, noUnsupportedFields]
      rw [strip_noUnsupported v, stripFields_noUnsupported fs]
      rfl

end

theorem noUnsupportedFields_iff (fs : List (String × JVal)) :
    noUnsupportedFields fs = true ↔
      ∀ p ∈ fs, geminiUnsupportedKeys.contains p.1 = false ∧ noUnsupported p.2 = true := by
  induction fs with
  | nil => simp [noUnsupportedFields]
  | cons p fs ih =>
    obtain ⟨k, v⟩ := p
    simp only [noUnsupportedFields, Bool.and_eq_true, Bool.not_eq_true', ih,
      List.mem_cons]
    constructor
    · rintro ⟨⟨h1, h2⟩, h3⟩ q hq
      rcases hq with hq | hq
      · rw [hq]; exact ⟨h1, h2⟩
      · exact h3 q hq
    · intro h
      exact ⟨⟨(h (k, v) (Or.inl rfl)).1, (h (k, v) (Or.inl rfl)).2⟩,
        fun q hq => h q (Or.inr hq)⟩

theorem noUnsupportedList_iff (xs : List JVal) :
    noUnsupportedList xs = true ↔ ∀ x ∈ xs, noUnsupported x = true := by
  induction xs with
  | nil => simp [noUnsupportedList]
  | cons x xs ih =>
    simp only [noUnsupportedList, Bool.and_eq_true, ih, List.mem_cons]
    constructor
    · rintro ⟨h1, h2⟩ y hy
      rcases hy with hy | hy
      · rw [hy]; exact h1
      · exact h2 y hy
    · intro h
      exact ⟨h x (Or.inl rfl), fun y hy => h y (Or.inr hy)⟩

theorem removeField_noUnsupported (fs : List (String × JVal)) (k : String)
    (h : noUnsupportedFields fs = true) :
    noUnsupportedFields (removeField fs k) = true := by
  rw [noUnsupportedFields_iff] at h ⊢
  intro p hp
  exact h p (List.mem_of_mem_filter hp)

theorem setField_noUnsupported (fs : List (String × JVal)) (k : String) (v : JVal)
    (h : noUnsupportedFields fs = true)
    (hk : geminiUnsupportedKeys.contains k = false) (hv : noUnsupported v = true) :
    noUnsupportedFields (setField fs k v) = true := by
  rw [noUnsupportedFields_iff] at h ⊢
  intro p hp
  rw [setField, List.mem_map] at hp
  obtain ⟨q, hq, hqp⟩ := hp
  by_cases hqk : q.1 == k
  · rw [if_pos hqk] at hqp
    rw [← hqp]
    exact ⟨hk, hv⟩
  · rw [if_neg hqk] at hqp
    rw [← hqp]
    exact h q hq

theorem lookupField_cons (k1 : String) (v1 : JVal) (fs : List (String × JVal))
    (k2 : String) :
    lookupField ((k1, v1) :: fs) k2 =
      if k1 == k2 then some v1 else lookupField fs k2 := by
  cases h : (k1 == k2) with
  | true => simp [lookupField, List.find?_cons, h]
  | false => simp [lookupField, List.find?_cons, h]

theorem lookupField_noUnsupported (fs : List (String × JVal)) (k : String) (v : JVal)
    (h : noUnsupportedFields fs = true) (hl : lookupField fs k = some v) :
    noUnsupported v = true := by
  induction fs with
  | nil => cases hl
  | cons p fs ih =>
    obtain ⟨k1, v1⟩ := p
    rw [noUnsupportedFields, Bool.and_eq_true, Bool.and_eq_true] at h
    rw [lookupField_cons] at hl
    by_cases hk : (k1 == k) = true
    · rw [if_pos hk] at hl
      rw [← Option.some_inj.1 hl]
      exact h.1.2
    · rw [if_neg hk] at hl
      exact ih h.2 hl

theorem filterExcept_ok (p : JVal → Except String Bool) :
    ∀ xs ys, filterExcept p xs = .ok ys →
      ∀ y ∈ ys, y ∈ xs ∧ p y = .ok true := by
  intro xs
  induction xs with
  | nil =>
    intro ys h y hy
    rw [filterExcept] at h
    rw [← Except.ok.inj h] at hy
    cases hy
  | cons x xs ih =>
    intro ys h y hy
    rw [filterExcept] at h
    cases hp : p x with
    | error e => simp only [hp] at h; cases h
    | ok b =>
      simp only [hp] at h
      cases hrest : filterExcept p xs with
      | error e => simp only [hrest] at h; cases h
      | ok rest =>
        simp only [hrest] at h
        have hys : ys = if b then x :: rest else rest := (Except.ok.inj h).symm
        subst hys
        cases b with
        | true =>
          rw [if_pos rfl] at hy
          rcases List.mem_cons.1 hy with hy | hy
          · rw [hy]; exact ⟨List.mem_cons_self x xs, hp⟩
          · obtain ⟨h1, h2⟩ := ih rest hrest y hy
            exact ⟨List.mem_cons_of_mem x h1, h2⟩
        | false =>
          rw [if_neg (by simp)] at hy
          obtain ⟨h1, h2⟩ := ih rest hrest y hy
          exact ⟨List.mem_cons_of_mem x h1, h2⟩

theorem lookupField_removeField_self (fs : List (String × JVal)) (k : String) :
    lookupField (removeField fs k) k = none := by
  induction fs with
  | nil => rfl
  | cons p fs ih =>
    obtain ⟨k1, v1⟩ := p
    rw [removeField, List.filter_cons]
    by_cases hk : (k1 == k) = true
    · rw [if_neg (by simp [hk])]
      exact ih
    · rw [if_pos (by simp [Bool.not_eq_true] at hk; simp [hk]), lookupField_cons,
        if_neg (by simp [Bool.not_eq_true] at hk ⊢; exact hk)]
      exact ih

theorem lookupField_setField_self (fs : List (String × JVal)) (k : String)
    (v w : JVal) (h : lookupField fs k = some w) :
    lookupField (setField fs k v) k = some v := by
  induction fs with
  | nil => cases h
  | cons p fs ih =>
    obtain ⟨k1, v1⟩ := p
    rw [lookupField_cons] at h
    rw [setField, List.map_cons]
    by_cases hk : (k1 == k) = true
    · rw [if_pos hk, lookupField_cons, if_pos (by simp)]
    · rw [if_neg hk, lookupField_cons, if_neg hk]
      rw [if_neg hk] at h
      exact ih h

theorem lookupField_setField_ne (fs : List (String × JVal)) (k k2 : String)
    (v : JVal) (hne : (k2 == k) = false) :
    lookupField (setField fs k v) k2 = lookupField fs k2 := by
  have hne2 : (k == k2) = false := by
    simp only [beq_eq_false_iff_ne] at hne ⊢
    exact fun hkk => hne hkk.symm
  induction fs with
  | nil => rfl
  | cons p fs ih =>
    obtain ⟨k1, v1⟩ := p
    rw [setField, List.map_cons]
    by_cases hk : (k1 == k) = true
    · have hk1 : k1 = k := by simpa using hk
      rw [if_pos hk, lookupField_cons, lookupField_cons, if_neg (by simp [hne2]),
        if_neg (by rw [hk1]; simp [hne2])]
      exact ih
    · rw [if_neg hk, lookupField_cons, lookupField_cons]
      by_cases hk2 : (k1 == k2) = true
      · rw [if_pos hk2, if_pos hk2]
      · rw [if_neg hk2, if_neg hk2]
        exact ih

theorem lookupField_cons_ne (k1 : String) (v1 : JVal) (fs : List (String × JVal))
    (k2 : String) (h : (k1 == k2) = false) :
    lookupField ((k1, v1) :: fs) k2 = lookupField fs k2 := by
  rw [lookupField_cons, if_neg (by simp [h])]

theorem strippedParams_noUnsupported (raw : List (String × JVal)) :
    noUnsupportedFields (strippedParams raw) = true :=
  removeField_noUnsupported _ _ (stripFields_noUnsupported raw)

theorem sanitize_noUnsupported (raw : List (String × JVal))
    (sent : List (String × JVal)) (h : sanitizeGeminiParams raw = .ok sent) :
    noUnsupportedFields sent = true := by
  have hs := strippedParams_noUnsupported raw
  cases hreq : lookupField (strippedParams raw) "required" with
  | none =>
    have hdef : sanitizeGeminiParams raw = .ok (strippedParams raw) := by
      simp [sanitizeGeminiParams, hreq]
    rw [hdef] at h
    rw [← Except.ok.inj h]
    exact hs
  | some req =>
    cases req with
    | arr entries =>
      cases hprops : lookupField (strippedParams raw) "properties" with
      | none =>
        have hdef : sanitizeGeminiParams raw
            = .ok (removeField (strippedParams raw) "required") := by
          simp [sanitizeGeminiParams, hreq, hprops, truthy]
        rw [hdef] at h
        rw [← Except.ok.inj h]
        exact removeField_noUnsupported _ _ hs
      | some props =>
        cases ht : truthy props with
        | false =>
          have hdef : sanitizeGeminiParams raw
              = .ok (removeField (strippedParams raw) "required") := by
            simp [sanitizeGeminiParams, hreq, hprops, ht]
          rw [hdef] at h
          rw [← Except.ok.inj h]
          exact removeField_noUnsupported _ _ hs
        | true =>
          cases hfil : filterExcept (fun e => jsInTest props (jsCoerce e)) entries with
          | error e =>
            have hdef : sanitizeGeminiParams raw = .error e := by
              simp [sanitizeGeminiParams, hreq, hprops, ht, hfil]
            rw [hdef] at h
            cases h
          | ok kept =>
            have hdef : sanitizeGeminiParams raw
                = .ok (if kept.isEmpty then removeField (strippedParams raw) "required"
                       else setField (strippedParams raw) "required" (.arr kept)) := by
              simp [sanitizeGeminiParams, hreq, hprops, ht, hfil]
            rw [hdef] at h
            rw [← Except.ok.inj h]
            cases hk : kept.isEmpty with
            | true =>
              rw [if_pos rfl]
              exact removeField_noUnsupported _ _ hs
            | false =>
              rw [if_neg (by simp)]
              refine setField_noUnsupported _ _ _ hs rfl ?_
              have harr : noUnsupported (.arr entries) = true :=
                lookupField_noUnsupported _ _ _ hs hreq
              rw [show noUnsupported (JVal.arr entries) = noUnsupportedList entries
                from rfl] at harr
              show noUnsupportedList kept = true
              rw [noUnsupportedList_iff] at harr ⊢
              intro y hy
              exact harr y (filterExcept_ok _ entries kept hfil y hy).1
    | null =>
      have hdef : sanitizeGeminiParams raw = .ok (strippedParams raw) := by
        simp [sanitizeGeminiParams, hreq, truthy]
      rw [hdef] at h
      rw [← Except.ok.inj h]
      exact hs
    | bool b =>
      cases b with
      | false =>
        have hdef : sanitizeGeminiParams raw = .ok (strippedParams raw) := by
          simp [sanitizeGeminiParams, hreq, truthy]
        rw [hdef] at h
        rw [← Except.ok.inj h]
        exact hs
      | true =>
        have hdef : sanitizeGeminiParams raw
            = .ok (removeField (strippedParams raw) "required") := by
          simp [sanitizeGeminiParams, hreq, truthy]
        rw [hdef] at h
        rw [← Except.ok.inj h]
        exact removeField_noUnsupported _ _ hs
    | num n =>
      by_cases hn : n = 0
      · have hdef : sanitizeGeminiParams raw = .ok (strippedParams raw) := by
          simp [sanitizeGeminiParams, hreq, truthy, hn]
        rw [hdef] at h
        rw [← Except.ok.inj h]
        exact hs
      · have hdef : sanitizeGeminiParams raw
            = .ok (removeField (strippedParams raw) "required") := by
          simp [sanitizeGeminiParams, hreq, truthy, hn]
        rw [hdef] at h
        rw [← Except.ok.inj h]
        exact removeField_noUnsupported _ _ hs
    | str s =>
      by_cases hstr : s = ""
      · have hdef : sanitizeGeminiParams raw = .ok (strippedParams raw) := by
          simp [sanitizeGeminiParams, hreq, truthy, hstr]
        rw [hdef] at h
        rw [← Except.ok.inj h]
        exact hs
      · have hdef : sanitizeGeminiParams raw
            = .ok (removeField (strippedParams raw) "required") := by
          simp [sanitizeGeminiParams, hreq, truthy, hstr]
        rw [hdef] at h
        rw [← Except.ok.inj h]
        exact removeField_noUnsupported _ _ hs
    | obj ofs =>
      have hdef : sanitizeGeminiParams raw
          = .ok (removeField (strippedParams raw) "required") := by
        simp [sanitizeGeminiParams, hreq, truthy]
      rw [hdef] at h
      rw [← Except.ok.inj h]
      exact removeField_noUnsupported _ _ hs

theorem sanitize_required_valid (raw : List (String × JVal))
    (sent : List (String × JVal)) (h : sanitizeGeminiParams raw = .ok sent) :
    ∀ entries, lookupField sent "required" = some (.arr entries) →
      ∀ e ∈ entries, ∃ props,
        lookupField sent "properties" = some props ∧
        jsInTest props (jsCoerce e) = .ok true := by
  intro entries hlook e he
  cases hreq : lookupField (strippedParams raw) "required" with
  | none =>
    have hdef : sanitizeGeminiParams raw = .ok (strippedParams raw) := by
      simp [sanitizeGeminiParams, hreq]
    rw [hdef] at h
    rw [← Except.ok.inj h, hreq] at hlook
    cases hlook
  | some req =>
    cases req with
    | arr entries2 =>
      cases hprops : lookupField (strippedParams raw) "properties" with
      | none =>
        have hdef : sanitizeGeminiParams raw
            = .ok (removeField (strippedParams raw) "required") := by
          simp [sanitizeGeminiParams, hreq, hprops, truthy]
        rw [hdef] at h
        rw [← Except.ok.inj h, lookupField_removeField_self] at hlook
        cases hlook
      | some props =>
        cases ht : truthy props with
        | false =>
          have hdef : sanitizeGeminiParams raw
              = .ok (removeField (strippedParams raw) "required") := by
            simp [sanitizeGeminiParams, hreq, hprops, ht]
          rw [hdef] at h
          rw [← Except.ok.inj h, lookupField_removeField_self] at hlook
          cases hlook
        | true =>
          cases hfil : filterExcept (fun e2 => jsInTest props (jsCoerce e2)) entries2 with
          | error e2 =>
            have hdef : sanitizeGeminiParams raw = .error e2 := by
              simp [sanitizeGeminiParams, hreq, hprops, ht, hfil]
            rw [hdef] at h
            cases h
          | ok kept =>
            have hdef : sanitizeGeminiParams raw
                = .ok (if kept.isEmpty then removeField (strippedParams raw) "required"
                       else setField (strippedParams raw) "required" (.arr kept)) := by
              simp [sanitizeGeminiParams, hreq, hprops, ht, hfil]
            rw [hdef] at h
            have hsent := Except.ok.inj h
            cases hk : kept.isEmpty with
            | true =>
              rw [← hsent, if_pos hk, lookupField_removeField_self] at hlook
              cases hlook
            | false =>
              rw [← hsent, if_neg (by simp [hk])] at hlook ⊢
              rw [lookupField_setField_self _ _ _ _ hreq] at hlook
              have hent : entries = kept :=
                (JVal.arr.inj (Option.some_inj.1 hlook)).symm
              refine ⟨props, ?_, ?_⟩
              · rw [lookupField_setField_ne _ _ _ _ (by decide)]
                exact hprops
              · rw [hent] at he
                exact (filterExcept_ok _ entries2 kept hfil e he).2
    | null =>
      have hdef : sanitizeGeminiParams raw = .ok (strippedParams raw) := by
        simp [sanitizeGeminiParams, hreq, truthy]
      rw [hdef] at h
      rw [← Except.ok.inj h, hreq] at hlook
      simp at hlook
    | bool b =>
      cases b with
      | false =>
        have hdef : sanitizeGeminiParams raw = .ok (strippedParams raw) := by
          simp [sanitizeGeminiParams, hreq, truthy]
        rw [hdef] at h
        rw [← Except.ok.inj h, hreq] at hlook
        simp at hlook
      | true =>
        have hdef : sanitizeGeminiParams raw
            = .ok (removeField (strippedParams raw) "required") := by
          simp [sanitizeGeminiParams, hreq, truthy]
        rw [hdef] at h
        rw [← Except.ok.inj h, lookupField_removeField_self] at hlook
        cases hlook
    | num n =>
      by_cases hn : n = 0
      · have hdef : sanitizeGeminiParams raw = .ok (strippedParams raw) := by
          simp [sanitizeGeminiParams, hreq, truthy, hn]
        rw [hdef] at h
        rw [← Except.ok.inj h, hreq] at hlook
        simp at hlook
      · have hdef : sanitizeGeminiParams raw
            = .ok (removeField (strippedParams raw) "required") := by
          simp [sanitizeGeminiParams, hreq, truthy, hn]
        rw [hdef] at h
        rw [← Except.ok.inj h, lookupField_removeField_self] at hlook
        cases hlook
    | str s =>
      by_cases hstr : s = ""
      · have hdef : sanitizeGeminiParams raw = .ok (strippedParams raw) := by
          simp [sanitizeGeminiParams, hreq, truthy, hstr]
        rw [hdef] at h
        rw [← Except.ok.inj h, hreq] at hlook
        simp at hlook
      · have hdef : sanitizeGeminiParams raw
            = .ok (removeField (strippedParams raw) "required") := by
          simp [sanitizeGeminiParams, hreq, truthy, hstr]
        rw [hdef] at h
        rw [← Except.ok.inj h, lookupField_removeField_self] at hlook
        cases hlook
    | obj ofs =>
      have hdef : sanitizeGeminiParams raw
          = .ok (removeField (strippedParams raw) "required") := by
        simp [sanitizeGeminiParams, hreq, truthy]
      rw [hdef] at h
      rw [← Except.ok.inj h, lookupField_removeField_self] at hlook
      cases hlook

-- ── C7 ──────────────────────────────────────────────────────────────────────

/-- A schema whose nested object declares `required: ["ghost"]` with no
matching property, while its top level is well-formed. -/
def nestedRequiredSchema : List (String × JVal) :=
  [("type", .str "object"),
   ("properties", .obj
     [("a", .obj [("type", .str "object"),
                  ("properties", .obj []),
                  ("required", .arr [.str "ghost"])])]),
   ("required", .arr [.str "a"])]

/-- A schema whose top-level `required` entry `"toString"` names no
declared property but is an `Object.prototype` member, so the JS `in` test
keeps it. -/
def protoRequiredSchema : List (String × JVal) :=
  [("properties", .obj []), ("required", .arr [.str "toString"])]

/-- C7 counterexample: the claim fails as stated, in two independent ways.
First, `sanitizeGeminiParams` repairs only the top-level `required` list:
on `nestedRequiredSchema` the schema sent still contains, inside
`properties.a`, the entry `required: ["ghost"]` although no property
`"ghost"` is declared there.  Second, even at top level the filter keeps
entries that only hit the prototype chain of the JS `in` test: on
`protoRequiredSchema` the schema sent keeps `required: ["toString"]`
although `properties` declares no `"toString"`.  In both cases the
"every `required` entry names a declared property" property evaluates to
`false`, while the unsupported-keyword part holds. -/
theorem sanitize_nested_required_counterexample :
    (geminiSentParams nestedRequiredSchema).map (fun fs => allRequiredValid (.obj fs))
      = .ok false ∧
    (geminiSentParams nestedRequiredSchema).map (fun fs => noUnsupported (.obj fs))
      = .ok true ∧
    (geminiSentParams protoRequiredSchema).map (fun fs => allRequiredValid (.obj fs))
      = .ok false :=
  ⟨rfl, rfl, rfl⟩

/-- C7 (amended): Whenever sanitization completes without throwing (the
`required` filter callback throws a `TypeError`, propagated out of
`complete`, when `properties` is a truthy primitive and `required` a
non-empty array), the schema sent to the backend contains none of the
unsupported JSON-Schema keywords (`additionalProperties`, `$schema`,
`$defs`, `$ref`, `examples`, `default`, `title`, `definitions`) at any
nesting depth, and every entry of the top-level `required` list passes the
JavaScript `in` membership test against the top-level `properties` value —
it names a declared property or an inherited prototype member such as
`toString`.  Nested `required` lists are passed through unadjusted. -/
theorem geminiSentParams_sanitized (raw : List (String × JVal))
    (sent : List (String × JVal)) (h : geminiSentParams raw = .ok sent) :
    noUnsupported (.obj sent) = true ∧
    ∀ entries, lookupField sent "required" = some (.arr entries) →
      ∀ e ∈ entries, ∃ props,
        lookupField sent "properties" = some props ∧
        jsInTest props (jsCoerce e) = .ok true := by
  cases hs : sanitizeGeminiParams raw with
  | error e => simp [geminiSentParams, hs, Except.map] at h
  | ok clean =>
    rw [geminiSentParams, hs] at h
    simp only [Except.map] at h
    have hsent : sent = ("type", .str "OBJECT") :: clean := (Except.ok.inj h).symm
    subst hsent
    constructor
    · show noUnsupportedFields (("type", .str "OBJECT") :: clean) = true
      rw [noUnsupportedFields, sanitize_noUnsupported raw clean hs]
      rfl
    · intro entries hlook e he
      rw [lookupField_cons_ne _ _ _ _ (by decide)] at hlook
      obtain ⟨props, hp, hkey⟩ := sanitize_required_valid raw clean hs entries hlook e he
      exact ⟨props, by rw [lookupField_cons_ne _ _ _ _ (by decide)]; exact hp, hkey⟩

/-- The successfully sanitized schema for `nestedRequiredSchema`. -/
def demoSent : List (String × JVal) :=
  (geminiSentParams nestedRequiredSchema).toOption.getD []

/-- Witness for C7 (amended): `nestedRequiredSchema` sanitizes without
throwing; the surviving top-level `required` entry `"a"` passes the `in`
test by naming a declared property. -/
theorem geminiSentParams_sanitized_witness :
    noUnsupported (.obj demoSent) = true ∧
    ∃ props,
      lookupField demoSent "properties" = some props ∧
      jsInTest props (jsCoerce (.str "a")) = .ok true :=
  ⟨(geminiSentParams_sanitized nestedRequiredSchema demoSent rfl).1,
   (geminiSentParams_sanitized nestedRequiredSchema demoSent rfl).2 [.str "a"] rfl
     (.str "a") (by simp)⟩

end SpaceClaw
